import Mathlib

/-!
Verification of the rmq Redis-backed work-queue library (queue.go, delivery.go).

The Redis store is modelled as pure Lean data:
* a Redis list is a `List String` whose head is the LEFT end (LPUSH side),
  so the last element is the RIGHT end (RPOP side, oldest element);
* a Redis sorted set is a `List (Int × String)` of (score, member) pairs kept in
  ascending (score, member) order, so list position = rank;
* a Redis set is a duplicate-free `List String`.

Store commands that can only fail with a connection-level error (LPUSH, LREM,
ZADD, SADD, SREM, LLEN, LTRIM, ZCOUNT, ZREMRANGEBYRANK) are modelled as total
functions: in the Go source such an error makes `redisErrIsNil` panic the
process, so it never yields a `false`/partial return value.  `redis.Nil`
("nothing there") outcomes, which the source does convert to return values,
are modelled with `Option` (RPOPLPUSH on an empty list).  The delayed
promotion script can abort mid-way with a genuine error (a nil LPUSH
argument), which the poller turns into a process panic; that outcome is
modelled as `Option.none` of the whole poll step.
-/

namespace Rmq

/-- Redis-side state touched by one queue: the ready, unacked and rejected
lists, the delayed sorted set, and the global `rmq::queues` set. -/
structure Store where
  ready : List String
  unacked : List String
  rejected : List String
  delayed : List (Int × String)
  queues : List String
deriving DecidableEq

def emptyStore : Store := ⟨[], [], [], [], []⟩

/-! ### Redis commands -/

/-- LPUSH key payload (single value): the new value becomes the head. -/
def lpush (l : List String) (p : String) : List String := p :: l

/-- LREM key 1 payload: remove the first (left-most) occurrence of `payload`;
returns the new list and the number of removed elements (0 or 1). -/
def lrem1 (l : List String) (p : String) : List String × Nat :=
  (l.erase p, if p ∈ l then 1 else 0)

/-- RPOPLPUSH src dst: pop the right-most element of `src` and push it onto
the left of `dst`; `none` models the `redis.Nil` reply on an empty source. -/
def rpoplpush (src dst : List String) : Option (List String × List String × String) :=
  match src.getLast? with
  | none => none
  | some x => some (src.dropLast, x :: dst, x)

/-- SADD key member on a duplicate-free list model of a set. -/
def sadd (s : List String) (x : String) : List String :=
  if x ∈ s then s else x :: s

/-- SREM key member: returns the new set and the number of removed members. -/
def srem (s : List String) (x : String) : List String × Nat :=
  (s.erase x, if x ∈ s then 1 else 0)

/-- Insert a (score, member) pair into an ascending (score, member)-ordered
list, in front of the first strictly larger key. -/
def zinsert (score : Int) (member : String) : List (Int × String) → List (Int × String)
  | [] => [(score, member)]
  | q :: rest =>
    if score < q.1 ∨ (score = q.1 ∧ member < q.2) then (score, member) :: q :: rest
    else q :: zinsert score member rest

/-- ZADD key score member: (re-)insert the member with the given score;
returns the new sorted set and the ZADD reply, which counts only NEWLY added
members (0 when the member already existed and only its score changed). -/
def zadd (zs : List (Int × String)) (score : Int) (member : String) :
    List (Int × String) × Nat :=
  (zinsert score member (zs.filter (fun q => q.2 ≠ member)),
   if member ∈ zs.map Prod.snd then 0 else 1)

/-! ### Delivery handle (delivery.go) -/

/-- Ack (delivery.go:46-55): `LRem(unackedKey, 1, payload)`, return
`count == 1`. -/
def Ack (s : Store) (p : String) : Store × Bool :=
  let r := lrem1 s.unacked p
  ({ s with unacked := r.1 }, r.2 == 1)

/-- Delay (delivery.go:57-75): `ZAdd(delayedKey, {score: now+d, member:
payload})` then `LRem(unackedKey, 1, payload)`; return
`zAdd.Val() == 1 && lRem.Val() == 1`.  `now` and `d` are the caller's clock
reading and the delay, both in nanoseconds. -/
def Delay (s : Store) (p : String) (now d : Int) : Store × Bool :=
  let za := zadd s.delayed (now + d) p
  let lr := lrem1 s.unacked p
  ({ s with delayed := za.1, unacked := lr.1 }, za.2 == 1 && lr.2 == 1)

/-- move (delivery.go:89-100) specialised to the rejected key:
`LPush(key, payload)` then `LRem(unackedKey, 1, payload)`; neither command
can reply `redis.Nil`, so absent a fatal connection error it returns true
regardless of how many elements `LRem` removed. -/
def move (s : Store) (p : String) : Store × Bool :=
  let rejected' := lpush s.rejected p
  let lr := lrem1 s.unacked p
  ({ s with rejected := rejected', unacked := lr.1 }, true)

/-- Reject (delivery.go:77-79): `move(rejectedKey)`. -/
def Reject (s : Store) (p : String) : Store × Bool := move s p

/-! ### Publishing (queue.go) -/

/-- Publish (queue.go:119-122): `LPush(readyKey, payload)`. -/
def Publish (s : Store) (p : String) : Store × Bool :=
  ({ s with ready := lpush s.ready p }, true)

/-! ### Purging (queue.go:615-661) -/

def purgeBatchSize : Nat := 100

/-- one iteration of the `deleteRedisList` loop:
`LTrim(key, 0, -1-batchSize)` with `batchSize = min purgeBatchSize todo`,
i.e. keep everything but the last `batchSize` elements. -/
def listTrimStep (l : List String) (todo : Nat) : List String :=
  l.take (l.length - min purgeBatchSize todo)

/-- the `for todo := total; todo > 0; todo -= purgeBatchSize` loop of
`deleteRedisList` (queue.go:625-634). -/
def deleteListLoop (l : List String) (todo : Nat) : List String :=
  if todo = 0 then l
  else deleteListLoop (listTrimStep l todo) (todo - purgeBatchSize)
  termination_by todo
  decreasing_by simp [purgeBatchSize]; omega

/-- deleteRedisList (queue.go:617-637): read `LLen`, trim in batches, return
the initial length. -/
def deleteRedisList (l : List String) : List String × Nat :=
  let total := l.length
  if total = 0 then (l, 0) else (deleteListLoop l total, total)

/-- one iteration of the `deleteRedisZSet` loop:
`ZRemRangeByRank(key, 0, batchSize)` with `batchSize = min purgeBatchSize
todo`; the rank range is INCLUSIVE, so `batchSize + 1` ranks are removed. -/
def zsetTrimStep (zs : List (Int × String)) (todo : Nat) : List (Int × String) :=
  zs.drop (min purgeBatchSize todo + 1)

/-- the `for todo := total; todo > 0; todo -= purgeBatchSize` loop of
`deleteRedisZSet` (queue.go:649-658). -/
def deleteZSetLoop (zs : List (Int × String)) (todo : Nat) : List (Int × String) :=
  if todo = 0 then zs
  else deleteZSetLoop (zsetTrimStep zs todo) (todo - purgeBatchSize)
  termination_by todo
  decreasing_by simp [purgeBatchSize]; omega

/-- deleteRedisZSet (queue.go:641-661): read `ZCount -inf +inf`, remove rank
ranges in batches, return the initial cardinality. -/
def deleteRedisZSet (zs : List (Int × String)) : List (Int × String) × Nat :=
  let total := zs.length
  if total = 0 then (zs, 0) else (deleteZSetLoop zs total, total)

/-- PurgeReady (queue.go:139-141). -/
def PurgeReady (s : Store) : Store × Nat :=
  let r := deleteRedisList s.ready
  ({ s with ready := r.1 }, r.2)

/-- PurgeRejected (queue.go:149-151). -/
def PurgeRejected (s : Store) : Store × Nat :=
  let r := deleteRedisList s.rejected
  ({ s with rejected := r.1 }, r.2)

/-- PurgeDelayed (queue.go:144-146). -/
def PurgeDelayed (s : Store) : Store × Nat :=
  let r := deleteRedisZSet s.delayed
  ({ s with delayed := r.1 }, r.2)

/-! ### Counts (queue.go:165-195) -/

def ReadyCount (s : Store) : Nat := s.ready.length

def RejectedCount (s : Store) : Nat := s.rejected.length

/-! ### ReturnRejected / ReturnAllRejected (queue.go:219-245) -/

/-- the `for i := 0; i < count; i++` loop of `ReturnRejected`: RPOPLPUSH from
rejected to ready `n` times, stopping at the first empty pop.  Returns the
final (rejected, ready) pair, the number of successful moves, and whether all
`n` iterations completed. -/
def rrLoop : List String → List String → Nat → List String × List String × Nat × Bool
  | rej, rdy, 0 => (rej, rdy, 0, true)
  | rej, rdy, n + 1 =>
    match rpoplpush rej rdy with
    | none => (rej, rdy, 0, false)
    | some (rej', rdy', _) =>
      let r := rrLoop rej' rdy' n
      (r.1, r.2.1, r.2.2.1 + 1, r.2.2.2)

/-- ReturnRejected (queue.go:231-245): the early `count == 0` return, the
move loop (whose iteration count is `count.toNat`, matching `i < count` for an
`int` counter), the early return of `i` on an empty pop, and the final
`return count`. -/
def ReturnRejected (s : Store) (count : Int) : Store × Int :=
  if count = 0 then (s, 0)
  else
    let r := rrLoop s.rejected s.ready count.toNat
    ({ s with rejected := r.1, ready := r.2.1 },
     if r.2.2.2 then count else (r.2.2.1 : Int))

/-- ReturnAllRejected (queue.go:219-227): `count := LLen(rejectedKey)` then
`ReturnRejected count`. -/
def ReturnAllRejected (s : Store) : Store × Int :=
  ReturnRejected s (s.rejected.length : Int)

/-! ### Close (queue.go:154-163) -/

/-- Close: purge rejected, delayed and ready, then
`SRem(queuesKey, queue.name)` on the global queues set; return
`SRem.Val() > 0`. -/
def Close (s : Store) (name : String) : Store × Bool :=
  let s1 := { s with rejected := (deleteRedisList s.rejected).1 }
  let s2 := { s1 with delayed := (deleteRedisZSet s1.delayed).1 }
  let s3 := { s2 with ready := (deleteRedisList s2.ready).1 }
  let r := srem s3.queues name
  ({ s3 with queues := r.1 }, decide (0 < r.2))

/-! ### StartConsuming (queue.go:266-284) -/

/-- In-process consuming state of a `redisQueue`: the two delivery channels
(`some cap` once created, `none` before), the prefetch/poll configuration and
the connection's queues set (`queue.queuesKey`). -/
structure ConsumeState where
  deliveryChanCap : Option Int
  deliveryChanDelayedCap : Option Int
  prefetchLimit : Int
  pollDuration : Int
  connQueues : List String
deriving DecidableEq

/-- StartConsuming: return false immediately when `deliveryChan != nil`;
otherwise SADD the queue name into the connection's queues set, record the
configuration, create both channels and return true. -/
def StartConsuming (q : ConsumeState) (name : String) (prefetchLimit pollDuration : Int) :
    ConsumeState × Bool :=
  if q.deliveryChanCap.isSome then (q, false)
  else
    ({ deliveryChanCap := some prefetchLimit,
       deliveryChanDelayedCap := some prefetchLimit,
       prefetchLimit := prefetchLimit,
       pollDuration := pollDuration,
       connQueues := sadd q.connQueues name }, true)

/-! ### The delayed promotion script (queue.go:446-464)

The Lua script run by `moveFromSortedSetToList`:

```
local val = redis.call('zrangebyscore', KEYS[1], '-inf', ARGV[1])
if(next(val) ~= nil) then
    redis.call('zremrangebyrank', KEYS[1], 0, ARGV[2] - 1)
    for i = 1, ARGV[2], 100 do
        redis.call('lpush', KEYS[2], unpack(val, i, math.min(i+99, ARGV[2])))
    end
end
return val
```

`KEYS[1]` is the delayed sorted set, `KEYS[2]` the unacked list, `ARGV[1]`
the current time `now` in nanoseconds and `ARGV[2]` the batch size.  When
`ARGV[2]` exceeds `#val`, `unpack` produces `nil` arguments and the
`redis.call('lpush', ...)` of that chunk raises, aborting the script with an
error AFTER the `zremrangebyrank` write has already been applied (Redis does
not roll scripts back); earlier complete chunks also stay applied.
-/

/-- ZRANGEBYSCORE key -inf now, projected to the members (rank order). -/
def zrangebyscoreLe (zs : List (Int × String)) (now : Int) : List String :=
  (zs.filter (fun q => decide (q.1 ≤ now))).map Prod.snd

/-- ZREMRANGEBYRANK key 0 stop: Redis semantics with a possibly negative
(end-relative) `stop`; removes ranks `0..stop` inclusive. -/
def zremrangebyrank0 (zs : List (Int × String)) (stop : Int) : List (Int × String) :=
  let stopN : Int := if stop < 0 then (zs.length : Int) + stop else stop
  if stopN < 0 then zs else zs.drop (stopN.toNat + 1)

/-- LPUSH key v1 .. vk: values are pushed left one after the other, so the
last value of the chunk ends up left-most. -/
def lpushMulti (lst : List String) (chunk : List String) : List String :=
  chunk.foldl (fun acc v => v :: acc) lst

/-- the `for i = 1, ARGV[2], 100` chunk loop of the script.  Each iteration
pushes `val[i..min(i+99, b)]` (1-based, inclusive); if that range reaches
past `#val`, `unpack` yields `nil` and the LPUSH raises, aborting the loop
with the Boolean `false`.  `fuel` only bounds the recursion; the loop makes
at most `⌈b/100⌉ ≤ b` iterations, so every caller passes `fuel := b`. -/
def chunkLoop (val : List String) (b : Nat) : Nat → Nat → List String → List String × Bool
  | 0, _, lst => (lst, true)
  | fuel + 1, i, lst =>
    if i ≤ b then
      let j := min (i + 99) b
      if j ≤ val.length then
        chunkLoop val b fuel (i + 100) (lpushMulti lst ((val.drop (i - 1)).take (j + 1 - i)))
      else (lst, false)
    else (lst, true)

/-- moveFromSortedSetToList (queue.go:446-464): the whole EVAL call on the
state (delayed sorted set, unacked list).  Returns the new sorted set, the
new list, and `some val` for a normal reply or `none` when the script aborted
on a nil LPUSH argument (the writes performed before the abort persist). -/
def moveFromSortedSetToList (zs : List (Int × String)) (lst : List String)
    (now : Int) (b : Nat) : List (Int × String) × List String × Option (List String) :=
  let val := zrangebyscoreLe zs now
  if val.isEmpty then (zs, lst, some val)
  else
    let zs' := zremrangebyrank0 zs ((b : Int) - 1)
    match chunkLoop val b b 1 lst with
    | (lst', true) => (zs', lst', some val)
    | (lst', false) => (zs', lst', none)

/-- Result of one `consumeBatchForDelayedQueue` poll step: the new store
state, the payloads injected into the delayed-path buffer, and the `wantMore`
return value. -/
structure DelayedPollResult where
  delayed : List (Int × String)
  unacked : List String
  injected : List String
  wantMore : Bool
deriving DecidableEq

/-- consumeBatchForDelayedQueue (queue.go:467-500): return false immediately
on `batchSize == 0`; otherwise run the script and inject every payload of its
reply into the delayed-path buffer.  A script error is fatal
(`redisErrIsNil` panics on a non-Nil error), modelled as `none`. -/
def consumeBatchForDelayedQueue (zs : List (Int × String)) (lst : List String)
    (now : Int) (batchSize : Nat) : Option DelayedPollResult :=
  if batchSize = 0 then some ⟨zs, lst, [], false⟩
  else
    match moveFromSortedSetToList zs lst now batchSize with
    | (zs', lst', some val) => some ⟨zs', lst', val, true⟩
    | (_, _, none) => none

/-! ### Helper lemmas -/

theorem listTrimStep_length (l : List String) (todo : Nat) :
    (listTrimStep l todo).length = l.length - min purgeBatchSize todo := by
  simp only [listTrimStep, List.length_take]
  omega

theorem zsetTrimStep_length (zs : List (Int × String)) (todo : Nat) :
    (zsetTrimStep zs todo).length = zs.length - (min purgeBatchSize todo + 1) := by
  simp [zsetTrimStep, List.length_drop]

theorem deleteListLoop_eq_nil (todo : Nat) (l : List String) (h : l.length ≤ todo) :
    deleteListLoop l todo = [] := by
  have hp : purgeBatchSize = 100 := rfl
  induction todo using Nat.strong_induction_on generalizing l with
  | _ todo ih =>
    rw [deleteListLoop]
    by_cases h0 : todo = 0
    · subst h0
      simpa using List.length_eq_zero.mp (Nat.le_zero.mp h)
    · simp only [h0, if_false]
      refine ih (todo - purgeBatchSize) (by omega) _ ?_
      rw [listTrimStep_length]
      omega

theorem deleteRedisList_spec (l : List String) : deleteRedisList l = ([], l.length) := by
  unfold deleteRedisList
  by_cases h0 : l.length = 0
  · simp [h0, List.length_eq_zero.mp h0]
  · simp [h0, deleteListLoop_eq_nil l.length l (le_refl _)]

theorem deleteZSetLoop_eq_nil (todo : Nat) (zs : List (Int × String))
    (h : zs.length ≤ todo) : deleteZSetLoop zs todo = [] := by
  have hp : purgeBatchSize = 100 := rfl
  induction todo using Nat.strong_induction_on generalizing zs with
  | _ todo ih =>
    rw [deleteZSetLoop]
    by_cases h0 : todo = 0
    · subst h0
      simpa using List.length_eq_zero.mp (Nat.le_zero.mp h)
    · simp only [h0, if_false]
      refine ih (todo - purgeBatchSize) (by omega) _ ?_
      rw [zsetTrimStep_length]
      omega

theorem deleteRedisZSet_spec (zs : List (Int × String)) :
    deleteRedisZSet zs = ([], zs.length) := by
  unfold deleteRedisZSet
  by_cases h0 : zs.length = 0
  · simp [h0, List.length_eq_zero.mp h0]
  · simp [h0, deleteZSetLoop_eq_nil zs.length zs (le_refl _)]

theorem zinsert_mem (score : Int) (member : String) (l : List (Int × String)) :
    (score, member) ∈ zinsert score member l := by
  induction l with
  | nil => simp [zinsert]
  | cons q rest ih =>
    rw [zinsert]
    split
    · exact List.mem_cons_self _ _
    · exact List.mem_cons_of_mem q ih

theorem lpushMulti_eq (lst chunk : List String) :
    lpushMulti lst chunk = chunk.reverse ++ lst := by
  induction chunk generalizing lst with
  | nil => rfl
  | cons c rest ih =>
    show lpushMulti (c :: lst) rest = (c :: rest).reverse ++ lst
    rw [ih, List.reverse_cons, List.append_assoc]
    rfl

theorem perm_shuffle (r c lst : List String) :
    List.Perm (r ++ (c.reverse ++ lst)) ((c ++ r) ++ lst) := by
  have p1 : List.Perm (r ++ (c.reverse ++ lst)) ((c.reverse ++ r) ++ lst) := by
    rw [← List.append_assoc]
    exact List.perm_append_comm.append_right lst
  exact p1.trans (((c.reverse_perm).append_right r).append_right lst)

theorem chunkLoop_ok (val : List String) (b : Nat) :
    ∀ (fuel i : Nat) (lst : List String), 1 ≤ i → b + 1 ≤ i + 100 * fuel →
      b ≤ val.length →
      (chunkLoop val b fuel i lst).2 = true ∧
      List.Perm (chunkLoop val b fuel i lst).1 (((val.take b).drop (i - 1)) ++ lst) := by
  intro fuel
  induction fuel with
  | zero =>
    intro i lst h1 h2 h3
    have hnil : (val.take b).drop (i - 1) = [] := by
      apply List.drop_eq_nil_of_le
      simp [List.length_take]
      omega
    exact ⟨rfl, by simp [chunkLoop, hnil]⟩
  | succ fuel ih =>
    intro i lst h1 h2 h3
    by_cases hib : i ≤ b
    · have hj : min (i + 99) b ≤ val.length := le_trans (min_le_right _ _) h3
      have hstep : chunkLoop val b (fuel + 1) i lst
          = chunkLoop val b fuel (i + 100)
              (lpushMulti lst ((val.drop (i - 1)).take (min (i + 99) b + 1 - i))) := by
        simp [chunkLoop, hib, hj]
      obtain ⟨ht, hp⟩ := ih (i + 100)
        (lpushMulti lst ((val.drop (i - 1)).take (min (i + 99) b + 1 - i)))
        (by omega) (by omega) h3
      rw [hstep]
      refine ⟨ht, hp.trans ?_⟩
      rw [lpushMulti_eq]
      have hch : ((val.take b).drop (i - 1)).take 100
          = (val.drop (i - 1)).take (min (i + 99) b + 1 - i) := by
        rw [List.drop_take, List.take_take]
        congr 1
        omega
      have hdd : ((val.take b).drop (i - 1)).drop 100 = (val.take b).drop (i + 100 - 1) := by
        rw [List.drop_drop]
        congr 1
        omega
      have hsplit : (val.take b).drop (i - 1)
          = (val.drop (i - 1)).take (min (i + 99) b + 1 - i) ++ (val.take b).drop (i + 100 - 1) := by
        rw [← hch, ← hdd, List.take_append_drop]
      rw [hsplit]
      exact perm_shuffle _ _ _
    · have hnil : (val.take b).drop (i - 1) = [] := by
        apply List.drop_eq_nil_of_le
        simp [List.length_take]
        omega
      exact ⟨by simp [chunkLoop, hib], by simp [chunkLoop, hib, hnil]⟩

/-! ### The publish / consume / reject-all pipeline used by property P6 -/

/-- Publish each payload in order (N calls to `Publish`). -/
def publishAll (ps : List String) (s : Store) : Store :=
  ps.foldl (fun t p => (Publish t p).1) s

/-- the ready poller's move loop (consumeBatch, queue.go:419-444): up to `n`
times `RPOPLPUSH(readyKey, unackedKey)`, stopping at the first empty pop;
also returns the payloads handed to the delivery channel, in pop order. -/
def drainReady : Nat → Store → Store × List String
  | 0, s => (s, [])
  | n + 1, s =>
    match rpoplpush s.ready s.unacked with
    | none => (s, [])
    | some (ready', unacked', x) =>
      let r := drainReady n { s with ready := ready', unacked := unacked' }
      (r.1, x :: r.2)

/-- Reject every delivered payload in order (N calls to `Reject`). -/
def rejectAll (ds : List String) (s : Store) : Store :=
  ds.foldl (fun t p => (Reject t p).1) s

theorem publishAll_spec (ps : List String) (s : Store) :
    publishAll ps s = { s with ready := ps.reverse ++ s.ready } := by
  induction ps generalizing s with
  | nil => rfl
  | cons p rest ih =>
    show publishAll rest { s with ready := p :: s.ready }
      = { s with ready := (p :: rest).reverse ++ s.ready }
    rw [ih]
    simp

theorem drainReady_spec (r : List String) : ∀ (u rej qs : List String)
    (dl : List (Int × String)),
    drainReady r.length ⟨r, u, rej, dl, qs⟩ = (⟨[], r ++ u, rej, dl, qs⟩, r.reverse) := by
  induction r using List.reverseRecOn with
  | nil => intro u rej qs dl; rfl
  | append_singleton ys x ih =>
    intro u rej qs dl
    have hlen : (ys ++ [x]).length = ys.length + 1 := by simp
    rw [hlen]
    show (match rpoplpush (ys ++ [x]) u with
      | none => (⟨ys ++ [x], u, rej, dl, qs⟩, [])
      | some (ready', unacked', z) =>
        let r := drainReady ys.length ⟨ready', unacked', rej, dl, qs⟩
        (r.1, z :: r.2)) = (⟨[], (ys ++ [x]) ++ u, rej, dl, qs⟩, (ys ++ [x]).reverse)
    rw [show rpoplpush (ys ++ [x]) u = some (ys, x :: u, x) by
      simp [rpoplpush, List.getLast?_concat, List.dropLast_concat]]
    simp only [ih (x :: u) rej qs dl]
    simp

theorem rejectAll_spec (ds : List String) (s : Store) :
    rejectAll ds s = { s with rejected := ds.reverse ++ s.rejected,
                              unacked := ds.foldl List.erase s.unacked } := by
  induction ds generalizing s with
  | nil => rfl
  | cons d rest ih =>
    show rejectAll rest { s with rejected := d :: s.rejected, unacked := s.unacked.erase d }
      = { s with rejected := (d :: rest).reverse ++ s.rejected,
                 unacked := (d :: rest).foldl List.erase s.unacked }
    rw [ih]
    simp

/-- Erasing, one after another, each element of a list that the starting list
is a permutation of empties it. -/
theorem foldl_erase_of_perm (ds : List String) : ∀ u : List String,
    List.Perm u ds → ds.foldl List.erase u = [] := by
  induction ds with
  | nil =>
    intro u h
    simpa using h.eq_nil
  | cons d rest ih =>
    intro u h
    simp only [List.foldl_cons]
    refine ih (u.erase d) ?_
    have h2 := h.erase d
    rwa [List.erase_cons_head] at h2

theorem rrLoop_all (rej : List String) : ∀ rdy : List String,
    rrLoop rej rdy rej.length = ([], rej ++ rdy, rej.length, true) := by
  induction rej using List.reverseRecOn with
  | nil => intro rdy; rfl
  | append_singleton ys x ih =>
    intro rdy
    have hlen : (ys ++ [x]).length = ys.length + 1 := by simp
    rw [hlen]
    show (match rpoplpush (ys ++ [x]) rdy with
      | none => (ys ++ [x], rdy, 0, false)
      | some (rej', rdy', _) =>
        let r := rrLoop rej' rdy' ys.length
        (r.1, r.2.1, r.2.2.1 + 1, r.2.2.2))
      = ([], ys ++ [x] ++ rdy, ys.length + 1, true)
    rw [show rpoplpush (ys ++ [x]) rdy = some (ys, x :: rdy, x) by
      simp [rpoplpush, List.getLast?_concat, List.dropLast_concat]]
    simp only [ih (x :: rdy)]
    simp

/-- a concrete delayed sorted set of 101 distinct members with ascending
scores, used to exhibit the purge batch granularity. -/
def z101 : List (Int × String) :=
  (List.range 101).map (fun (i : Nat) => ((i : Int), toString i))

/-! ### Claim theorems -/

/-- C1: counterexample evaluation.  On the delayed set `{a ↦ 10, b ↦ 100}`
with `now = 50` and `batchSize = 2` only `a` is due, yet the script removes
the rank range `[0, 1]` — both entries — before aborting on the nil LPUSH
argument, so the future entry `(100, "b")` does NOT remain in the delayed
sorted set, contradicting the specified behaviour that items whose due-time
is in the future are not touched. -/
theorem moveScript_removes_future_entry :
    moveFromSortedSetToList [(10, "a"), (100, "b")] [] 50 2 = ([], [], none) ∧
    ((100 : Int), "b") ∉ (moveFromSortedSetToList [(10, "a"), (100, "b")] [] 50 2).1 ∧
    (50 : Int) < 100 := by decide

/-- C2: counterexample.  With three due entries and `batchSize = 2` the
script pushes only `a` and `b` onto the unacked list but returns (and the
poller injects) all three payloads, so the returned array is NOT exactly the
promoted ones: `c` is injected although it stays in the delayed set. -/
theorem delayedPoll_injects_unpromoted_payload :
    consumeBatchForDelayedQueue [(1, "a"), (2, "b"), (3, "c")] [] 10 2
      = some ⟨[(3, "c")], ["b", "a"], ["a", "b", "c"], true⟩ ∧
    "c" ∈ (["a", "b", "c"] : List String) ∧
    "c" ∉ (["b", "a"] : List String) := by decide

/-- C2 (amended): when the script is called with `1 ≤ batchSize ≤ #due`, it
removes the first `batchSize` ranks from the delayed set, pushes exactly the
first `batchSize` due payloads onto the unacked list, and returns the FULL
list of due payloads, which the poller injects into the delayed-path
buffer — a superset of the promoted ones whenever `#due > batchSize`. -/
theorem moveScript_promotes_prefix (zs : List (Int × String)) (lst : List String)
    (now : Int) (b : Nat) (h1 : 1 ≤ b) (h2 : b ≤ (zrangebyscoreLe zs now).length) :
    (moveFromSortedSetToList zs lst now b).1 = zs.drop b ∧
    (moveFromSortedSetToList zs lst now b).2.2 = some (zrangebyscoreLe zs now) ∧
    List.Perm (moveFromSortedSetToList zs lst now b).2.1
      ((zrangebyscoreLe zs now).take b ++ lst) ∧
    consumeBatchForDelayedQueue zs lst now b
      = some ⟨zs.drop b, (moveFromSortedSetToList zs lst now b).2.1,
              zrangebyscoreLe zs now, true⟩ := by
  have hne : (zrangebyscoreLe zs now).isEmpty = false := by
    cases hv : zrangebyscoreLe zs now
    · rw [hv] at h2; simp at h2; omega
    · rfl
  have hzr : zremrangebyrank0 zs ((b : Int) - 1) = zs.drop b := by
    unfold zremrangebyrank0
    have hb : ¬ ((b : Int) - 1 < 0) := by omega
    simp only [hb, if_false]
    congr 1
    omega
  obtain ⟨ht, hp⟩ := chunkLoop_ok (zrangebyscoreLe zs now) b b 1 lst (le_refl 1)
    (by omega) h2
  have hmain : moveFromSortedSetToList zs lst now b
      = (zs.drop b, (chunkLoop (zrangebyscoreLe zs now) b b 1 lst).1,
         some (zrangebyscoreLe zs now)) := by
    unfold moveFromSortedSetToList
    cases hres : chunkLoop (zrangebyscoreLe zs now) b b 1 lst with
    | mk lst' ok =>
      rw [hres] at ht
      subst ht
      simp only [hne, Bool.false_eq_true, if_false, hzr, hres]
  refine ⟨by rw [hmain], by rw [hmain], ?_, ?_⟩
  · rw [hmain]
    simpa using hp
  · have hb0 : b ≠ 0 := by omega
    unfold consumeBatchForDelayedQueue
    simp only [hb0, if_false]
    rw [hmain]

/-- C2 (amended) witness at a concrete input: three due entries, batch 2. -/
theorem moveScript_promotes_prefix_witness :
    consumeBatchForDelayedQueue [(1, "a"), (2, "b"), (3, "c")] [] 10 2
      = some ⟨[(3, "c")], ["b", "a"], ["a", "b", "c"], true⟩ := by
  have h := moveScript_promotes_prefix [(1, "a"), (2, "b"), (3, "c")] [] 10 2
    (by decide) (by decide)
  exact h.2.2.2.trans (by decide)

/-- C3: counterexample.  With an empty unacked list the payload is not
present and `LRem` removes nothing, yet `Reject` returns true (the source
only checks the two commands for connection errors, never the removal
count), contradicting the claimed false return. -/
theorem reject_true_when_absent :
    (Reject emptyStore "p").2 = true ∧
    "p" ∉ emptyStore.unacked ∧
    (Reject emptyStore "p").1.unacked = [] := by decide

/-- C3 (amended): `Reject` LPUSHes the payload onto the rejected list, then
LREMs at most one occurrence from the unacked list, and — absent a fatal
store error — returns true regardless of whether anything was removed. -/
theorem reject_spec (s : Store) (p : String) :
    (Reject s p).1.rejected = p :: s.rejected ∧
    (Reject s p).1.unacked = s.unacked.erase p ∧
    (Reject s p).1.ready = s.ready ∧
    (Reject s p).1.delayed = s.delayed ∧
    (Reject s p).2 = true :=
  ⟨rfl, rfl, rfl, rfl, rfl⟩

/-- C4: counterexample.  The payload is in the unacked list and both store
commands succeed (ZADD updates the existing member's score, LREM removes one
occurrence), yet `Delay` returns false because the ZADD reply counts only
newly added members and the source requires it to be 1. -/
theorem delay_false_on_existing_member :
    (Delay ⟨[], ["p"], [], [(5, "p")], []⟩ "p" 3 7).2 = false ∧
    "p" ∈ (Store.mk [] ["p"] [] [(5, "p")] []).unacked ∧
    "p" ∈ ((Store.mk [] ["p"] [] [(5, "p")] []).delayed.map Prod.snd) ∧
    (Delay ⟨[], ["p"], [], [(5, "p")], []⟩ "p" 3 7).1.unacked = [] := by decide

/-- C4 (amended): `Delay` adds the payload to the delayed sorted set with
score `now + d` and LREMs one occurrence from the unacked list; it returns
true iff the payload was NOT already a member of the delayed set (so the
ZADD reply is 1) and exactly one occurrence was removed from unacked. -/
theorem delay_spec (s : Store) (p : String) (now d : Int) :
    (now + d, p) ∈ (Delay s p now d).1.delayed ∧
    (Delay s p now d).1.unacked = s.unacked.erase p ∧
    ((Delay s p now d).2 = true ↔ p ∉ s.delayed.map Prod.snd ∧ p ∈ s.unacked) := by
  refine ⟨?_, rfl, ?_⟩
  · show (now + d, p) ∈ (zadd s.delayed (now + d) p).1
    unfold zadd
    exact zinsert_mem _ _ _
  · show ((zadd s.delayed (now + d) p).2 == 1 && (lrem1 s.unacked p).2 == 1) = true
      ↔ p ∉ s.delayed.map Prod.snd ∧ p ∈ s.unacked
    unfold zadd lrem1
    by_cases h1 : p ∈ s.delayed.map Prod.snd <;> by_cases h2 : p ∈ s.unacked <;>
      simp [h1, h2]

/-- C5: counterexample.  On a delayed sorted set of 101 entries the first
purge iteration issues `ZRemRangeByRank(key, 0, 100)`, an INCLUSIVE rank
range of 101 elements, so it removes all 101 entries at once instead of a
batch of exactly 100 followed by a remainder batch of 1. -/
theorem purgeDelayed_batch_not_100 :
    z101.length = 101 ∧
    (zsetTrimStep z101 101).length = 0 ∧
    ¬ ((zsetTrimStep z101 101).length = z101.length - 100) := by
  have hlen : z101.length = 101 := by
    unfold z101
    rw [List.length_map, List.length_range]
  have hstep : (zsetTrimStep z101 101).length = 0 := by
    rw [zsetTrimStep_length, hlen]
    rfl
  refine ⟨hlen, hstep, ?_⟩
  rw [hstep, hlen]
  decide

/-- C5 (amended): `PurgeReady` and `PurgeRejected` trim the list in batches
of exactly `min 100 todo` elements per iteration; `PurgeDelayed` removes the
inclusive rank range `0..min 100 todo`, i.e. `min 100 todo + 1` elements per
iteration.  In all three cases the structure ends empty and the count present
at the start of the purge is returned. -/
theorem purge_spec (s : Store) (todo : Nat) :
    PurgeReady s = ({ s with ready := [] }, ReadyCount s) ∧
    PurgeRejected s = ({ s with rejected := [] }, RejectedCount s) ∧
    PurgeDelayed s = ({ s with delayed := [] }, s.delayed.length) ∧
    (listTrimStep s.ready todo).length = s.ready.length - min purgeBatchSize todo ∧
    (zsetTrimStep s.delayed todo).length
      = s.delayed.length - (min purgeBatchSize todo + 1) := by
  refine ⟨?_, ?_, ?_, listTrimStep_length _ _, zsetTrimStep_length _ _⟩
  · unfold PurgeReady
    rw [deleteRedisList_spec]
    rfl
  · unfold PurgeRejected
    rw [deleteRedisList_spec]
    rfl
  · unfold PurgeDelayed
    rw [deleteRedisZSet_spec]

/-- C6: `Ack` LREMs one occurrence of the payload from the unacked list and
returns true iff exactly one element was removed, i.e. iff the payload was
present; a second `Ack` once the payload is gone removes nothing and returns
false. -/
theorem ack_spec (s : Store) (p : String) :
    ((Ack s p).2 = true ↔ p ∈ s.unacked) ∧
    (Ack s p).1.unacked = s.unacked.erase p ∧
    (Ack s p).1.unacked.count p = s.unacked.count p - 1 ∧
    (p ∉ (Ack s p).1.unacked →
      (Ack (Ack s p).1 p).2 = false ∧ (Ack (Ack s p).1 p).1.unacked = (Ack s p).1.unacked) := by
  refine ⟨?_, rfl, ?_, ?_⟩
  · show ((lrem1 s.unacked p).2 == 1) = true ↔ p ∈ s.unacked
    unfold lrem1
    by_cases h : p ∈ s.unacked <;> simp [h]
  · show (s.unacked.erase p).count p = s.unacked.count p - 1
    exact List.count_erase_self p s.unacked
  · intro h
    constructor
    · show ((lrem1 (Ack s p).1.unacked p).2 == 1) = false
      unfold lrem1
      simp [h]
    · show ((lrem1 (Ack s p).1.unacked p).1) = (Ack s p).1.unacked
      unfold lrem1
      exact List.erase_of_not_mem h

/-- C6 witness: acking twice on a store whose unacked list holds the payload
once; the second call returns false. -/
theorem ack_spec_witness :
    (Ack (Ack ⟨[], ["p"], [], [], []⟩ "p").1 "p").2 = false :=
  ((ack_spec ⟨[], ["p"], [], [], []⟩ "p").2.2.2 (by decide)).1

/-- C7: the P6 round trip.  Publishing the payloads `ps`, consuming all of
them into the unacked list, rejecting each delivered payload, and then
calling `ReturnAllRejected` leaves `ReadyCount = ps.length`,
`RejectedCount = 0`, and `ReturnAllRejected` returns `ps.length`. -/
theorem return_rejected_round_trip (ps : List String) :
    ReadyCount (ReturnAllRejected (rejectAll
        (drainReady ps.length (publishAll ps emptyStore)).2
        (drainReady ps.length (publishAll ps emptyStore)).1)).1 = ps.length ∧
    RejectedCount (ReturnAllRejected (rejectAll
        (drainReady ps.length (publishAll ps emptyStore)).2
        (drainReady ps.length (publishAll ps emptyStore)).1)).1 = 0 ∧
    (ReturnAllRejected (rejectAll
        (drainReady ps.length (publishAll ps emptyStore)).2
        (drainReady ps.length (publishAll ps emptyStore)).1)).2 = (ps.length : Int) := by
  have hpub : publishAll ps emptyStore = ⟨ps.reverse, [], [], [], []⟩ := by
    rw [publishAll_spec]
    simp [emptyStore]
  have hdrain : drainReady ps.length (publishAll ps emptyStore)
      = (⟨[], ps.reverse, [], [], []⟩, ps) := by
    rw [hpub]
    have hl : ps.length = ps.reverse.length := (List.length_reverse ps).symm
    rw [hl, drainReady_spec]
    simp
  have hrej : rejectAll ps ⟨[], ps.reverse, [], [], []⟩ = ⟨[], [], ps.reverse, [], []⟩ := by
    rw [rejectAll_spec]
    have hu : ps.foldl List.erase ps.reverse = [] :=
      foldl_erase_of_perm ps ps.reverse (List.reverse_perm ps)
    simp [hu]
  rw [hdrain, hrej]
  unfold ReturnAllRejected ReturnRejected
  by_cases h0 : ps = []
  · subst h0
    simp [ReadyCount, RejectedCount]
  · have hlen : ps.reverse.length = ps.length := List.length_reverse ps
    have hne : ((⟨[], [], ps.reverse, [], []⟩ : Store).rejected.length : Int) ≠ 0 := by
      simp [hlen]
      exact h0
    simp only [hne, if_false]
    have htn : (((⟨[], [], ps.reverse, [], []⟩ : Store).rejected.length : Int)).toNat
        = ps.reverse.length := by simp
    rw [htn, rrLoop_all ps.reverse []]
    simp [ReadyCount, RejectedCount, hlen]

/-- C8: `StartConsuming` is one-shot.  After a successful call the delivery
channel is non-nil, so every subsequent call returns false and leaves the
consuming state (channels, configuration, connection queues set) unchanged. -/
theorem startConsuming_one_shot (q : ConsumeState) (nm nm2 : String)
    (pl pd pl2 pd2 : Int) (h : (StartConsuming q nm pl pd).2 = true) :
    StartConsuming (StartConsuming q nm pl pd).1 nm2 pl2 pd2
      = ((StartConsuming q nm pl pd).1, false) := by
  have hq : ¬ q.deliveryChanCap.isSome = true := by
    intro hc
    rw [StartConsuming, if_pos hc] at h
    simp at h
  have h1 : StartConsuming q nm pl pd
      = ({ deliveryChanCap := some pl, deliveryChanDelayedCap := some pl,
           prefetchLimit := pl, pollDuration := pd,
           connQueues := sadd q.connQueues nm }, true) := by
    rw [StartConsuming, if_neg hq]
  rw [h1, StartConsuming]
  rfl

/-- C8 witness: start consuming on a fresh queue, then call again. -/
theorem startConsuming_one_shot_witness :
    StartConsuming (StartConsuming ⟨none, none, 0, 0, []⟩ "q" 5 1).1 "q" 7 2
      = ((StartConsuming ⟨none, none, 0, 0, []⟩ "q" 5 1).1, false) :=
  startConsuming_one_shot ⟨none, none, 0, 0, []⟩ "q" "q" 5 1 7 2 (by decide)

/-- C9: `ReturnRejected` with a strictly negative count: the `count == 0`
early return is not taken, the `for i := 0; i < count` loop body never runs
(so no store command is issued and the store is unchanged), and the final
`return count` hands the negative number straight back. -/
theorem returnRejected_negative (s : Store) (count : Int) (h : count < 0) :
    ReturnRejected s count = (s, count) := by
  have h0 : count ≠ 0 := by omega
  have ht : count.toNat = 0 := Int.toNat_of_nonpos (le_of_lt h)
  obtain ⟨r1, r2, r3, r4, r5⟩ := s
  unfold ReturnRejected
  rw [if_neg h0, ht]
  rfl

/-- C9 witness at count `-3`. -/
theorem returnRejected_negative_witness :
    ReturnRejected emptyStore (-3) = (emptyStore, -3) :=
  returnRejected_negative emptyStore (-3) (by decide)

/-- C10: `Close` empties the rejected list, the delayed sorted set and the
ready list unconditionally, and returns false exactly when the queue name was
not a member of the global queues set handed to the SRem. -/
theorem close_spec (s : Store) (nm : String) :
    (Close s nm).1.rejected = [] ∧
    (Close s nm).1.delayed = [] ∧
    (Close s nm).1.ready = [] ∧
    ((Close s nm).2 = false ↔ nm ∉ s.queues) := by
  obtain ⟨a, b, c, d, e⟩ := s
  unfold Close srem
  simp only [deleteRedisList_spec, deleteRedisZSet_spec]
  by_cases h : nm ∈ e <;> simp [h]

end Rmq
